import Mathlib

/-!
Verification of the CSV-ingestion and dual-dialect query layer of the
aectransparencyreader repository (src/app.py, src/import_to_sqlite.py).

Strings are modelled as Lean `String`s (lists of characters); the model is
faithful for ASCII text, which is what the catalog identifiers, SQL text and
CSV headers of this program consist of.  Python's `str.strip()` whitespace
set is modelled by its ASCII part, and `\w` (of `re`) by ASCII word
characters.  Machine floats produced by `float(...)` are modelled as exact
rationals (plus infinity/NaN markers); every concrete value appearing in the
theorems below is exactly representable, so the model and the code agree on
them.  Exceptions are modelled as `Except`/`Option` results; the SQL engines
are abstracted as oracle functions throughout — the query executor takes
the engine's answer as an oracle, and the upload pipeline takes the
engine's verdicts on its CREATE TABLE and INSERT statements as oracles
(documented engine facts, such as both engines rejecting duplicate column
names in CREATE TABLE, appear as hypotheses or concrete instantiations of
those oracles, never hard-coded into the model).
-/

/-- The apostrophe character. -/
def apos : Char := '\''

/-- The ASCII characters stripped by Python's `str.strip()` (the characters
`c < 128` with `str(c).isspace()`). -/
def isPyWs (c : Char) : Bool :=
  c = ' ' || c = '\t' || c = '\n' || c = '\x0b' || c = '\x0c' || c = '\r' ||
  c = '\x1c' || c = '\x1d' || c = '\x1e' || c = '\x1f'

/-- Drop characters satisfying `p` from the end of a list (via reverse). -/
def dropEnd (p : Char → Bool) (l : List Char) : List Char :=
  (l.reverse.dropWhile p).reverse

/-- Python `s.strip()` (ASCII whitespace from both ends). -/
def pyStrip (l : List Char) : List Char :=
  dropEnd isPyWs (l.dropWhile isPyWs)

/-- Python `s.strip('_')`. -/
def stripUnd (l : List Char) : List Char :=
  dropEnd (fun c => c = '_') (l.dropWhile (fun c => c = '_'))

/-- Python `s.replace(t, r)` for a one-character pattern `t`: every
occurrence of the character `t` becomes the string `r`. -/
def replChar (t : Char) (r : List Char) : List Char → List Char
  | [] => []
  | c :: l => (if c = t then r else [c]) ++ replChar t r l

/-- One pass of Python `s.replace('__', '_')`: leftmost, non-overlapping. -/
def replaceUU : List Char → List Char
  | a :: b :: r => if a = '_' ∧ b = '_' then '_' :: replaceUU r else a :: replaceUU (b :: r)
  | l => l

/-- Python `'__' in s`. -/
def hasUU : List Char → Bool
  | a :: b :: r => (a = '_' && b = '_') || hasUU (b :: r)
  | _ => false

/-- The source's `while '__' in cleaned: cleaned = cleaned.replace('__','_')`
loop, with explicit fuel.  Each iteration on a string containing `__`
strictly shrinks the string, so fuel `l.length` always reaches the
fixpoint (proved below in `collapseU_fix`). -/
def collapseU : Nat → List Char → List Char
  | 0, l => l
  | n + 1, l => if hasUU l then collapseU n (replaceUU l) else l

/-- The collapse loop of `clean_column_name`, run with adequate fuel. -/
def pyCollapse (l : List Char) : List Char :=
  collapseU l.length l

/-- `clean_column_name` of src/import_to_sqlite.py lines 11-33 (identical
copy at src/app.py lines 1264-1280): strip; replace space, `/`, `-`, `.`
by `_`; replace `(`, `)`, `,`, `'` by the empty string; collapse `__`
runs; strip `_` from both ends. -/
def clean_column_name (s : String) : String :=
  let l := pyStrip s.data
  let l := replChar ' ' ['_'] l
  let l := replChar '(' [] l
  let l := replChar ')' [] l
  let l := replChar '/' ['_'] l
  let l := replChar '-' ['_'] l
  let l := replChar '.' ['_'] l
  let l := replChar ',' [] l
  let l := replChar apos [] l
  let l := pyCollapse l
  let l := stripUnd l
  ⟨l⟩

/-- One-pass character rewrite following the amended specification wording:
space, `/`, `-`, `.` become `_`; `(`, `)`, `,`, `'` are removed. -/
def charPassSpec : List Char → List Char
  | [] => []
  | c :: l =>
    (if c = ' ' ∨ c = '/' ∨ c = '-' ∨ c = '.' then ['_']
     else if c = '(' ∨ c = ')' ∨ c = ',' ∨ c = apos then []
     else [c]) ++ charPassSpec l

/-- Collapse every run of underscores to a single underscore (the
specification's description of the `__` collapse step). -/
def squeezeU : List Char → List Char
  | [] => []
  | [c] => [c]
  | a :: b :: r =>
    if a = '_' ∧ b = '_' then squeezeU (b :: r) else a :: squeezeU (b :: r)

/-- The sanitizer as the amended specification describes it: trim
whitespace; map space, `/`, `-`, `.` to `_` and drop `(`, `)`, `,`, `'`;
collapse each run of two or more underscores to one; strip leading and
trailing underscores. -/
def clean_amended (s : String) : String :=
  ⟨stripUnd (squeezeU (charPassSpec (pyStrip s.data)))⟩

/-- ASCII digit test. -/
def isDig (c : Char) : Bool := '0' ≤ c && c ≤ '9'

/-- Digit value of an ASCII digit. -/
def digVal (c : Char) : Nat := c.toNat - '0'.toNat

/-- Consume a Python integer-literal digit group `digit (['_'] digit)*`
starting after an already-consumed first digit whose accumulated value is
`acc`; returns the value, the number of digits, and the rest.  Mirrors
CPython's rule that `_` must stand between two digits. -/
def digitsTail (acc : Nat) (k : Nat) : List Char → Nat × Nat × List Char
  | [] => (acc, k, [])
  | '_' :: c :: r =>
    if isDig c then digitsTail (acc * 10 + digVal c) (k + 1) r
    else (acc, k, '_' :: c :: r)
  | c :: r =>
    if isDig c then digitsTail (acc * 10 + digVal c) (k + 1) r
    else (acc, k, c :: r)

/-- Consume a Python digit group: at least one digit, `_` allowed between
digits only.  `none` when the text does not start with a digit. -/
def parseDigits : List Char → Option (Nat × Nat × List Char)
  | c :: r => if isDig c then some (digitsTail (digVal c) 1 r) else none
  | [] => none

/-- Strip at most one leading sign; `true` means negative. -/
def parseSign : List Char → Bool × List Char
  | '+' :: r => (false, r)
  | '-' :: r => (true, r)
  | l => (false, l)

/-- Python `int(s)` on a string (ASCII): surrounding whitespace, optional
single sign, then a digit group consuming the whole rest; `none` when
`int` raises `ValueError`. -/
def pyInt (s : String) : Option Int :=
  let t := pyStrip s.data
  let (neg, t) := parseSign t
  match parseDigits t with
  | some (v, _, []) => some (if neg then -(v : Int) else (v : Int))
  | _ => none

/-- Result of Python `float(s)`: an exact rational for a finite literal
(CPython rounds it to binary64; every value used in this development is
exactly representable, where the two agree), or an infinity/NaN marker. -/
inductive PyFloat where
  | finite (q : ℚ)
  | infinite (neg : Bool)
  | nan
  deriving DecidableEq, Repr

/-- Lower-case an ASCII letter. -/
def lowerC (c : Char) : Char := c.toLower

/-- Python `float(s)` on a string (ASCII): whitespace, optional sign, then
a decimal literal `digits [. digits] [e[sign]digits]` (underscores between
digits), a bare-fraction form `. digits ...`, or `inf`/`infinity`/`nan`
(case-insensitive); `none` when `float` raises `ValueError`. -/
def pyFloat (s : String) : Option PyFloat :=
  let t := pyStrip s.data
  let (neg, t) := parseSign t
  let low := t.map lowerC
  if low = "inf".data ∨ low = "infinity".data then some (.infinite neg)
  else if low = "nan".data then some .nan
  else
    let mant : Option (ℚ × List Char) :=
      match parseDigits t with
      | some (ip, _, rest) =>
        match rest with
        | '.' :: r2 =>
          match parseDigits r2 with
          | some (fp, fl, r3) => some ((ip : ℚ) + (fp : ℚ) / (10 : ℚ) ^ fl, r3)
          | none => some ((ip : ℚ), r2)
        | _ => some ((ip : ℚ), rest)
      | none =>
        match t with
        | '.' :: r2 =>
          match parseDigits r2 with
          | some (fp, fl, r3) => some ((fp : ℚ) / (10 : ℚ) ^ fl, r3)
          | none => none
        | _ => none
    match mant with
    | none => none
    | some (m, rest) =>
      match rest with
      | [] => some (.finite (if neg then -m else m))
      | e :: r2 =>
        if e = 'e' ∨ e = 'E' then
          let (eneg, r3) := parseSign r2
          match parseDigits r3 with
          | some (ev, _, []) =>
            let q := m * (10 : ℚ) ^ (if eneg then -(ev : ℤ) else (ev : ℤ))
            some (.finite (if neg then -q else q))
          | _ => none
        else none

/-- Whether Python `int(s)` succeeds. -/
def pyIntOk (s : String) : Bool := (pyInt s).isSome

/-- Whether Python `float(s)` succeeds. -/
def pyFloatOk (s : String) : Bool := (pyFloat s).isSome

/-- The three storage types the inferencer chooses between. -/
inductive SqlType where
  | INTEGER
  | REAL
  | TEXT
  deriving DecidableEq, Repr

/-- The survivors filter of `infer_column_type`: `[v for v in values if v
and v.strip()]` (non-empty and not whitespace-only). -/
def nonEmptyVals (values : List String) : List String :=
  values.filter (fun v => v.data ≠ [] ∧ pyStrip v.data ≠ [])

/-- `infer_column_type` of src/import_to_sqlite.py lines 35-61 (identical
logic at src/app.py lines 1282-1305): drop empty/whitespace-only values;
TEXT if none are left; on the first 100 survivors, INTEGER if every one
parses with `int`, else REAL if every one parses with `float`, else
TEXT.  (The `try`/`for` loop raises out at the first failing value, which
is the same as the `all` over the examined prefix.) -/
def infer_column_type (values : List String) : SqlType :=
  let non_empty := nonEmptyVals values
  if non_empty = [] then .TEXT
  else if (non_empty.take 100).all pyIntOk then .INTEGER
  else if (non_empty.take 100).all pyFloatOk then .REAL
  else .TEXT

/-- A stored cell value: SQL NULL, an integer, a REAL (exact rational, or
an infinity/NaN coming from `float('inf')`-like inputs), or text. -/
inductive Value where
  | null
  | int (i : ℤ)
  | real (q : ℚ)
  | realInf (neg : Bool)
  | realNaN
  | text (s : String)
  deriving DecidableEq, Repr

/-- Cell coercion during ingestion (src/import_to_sqlite.py lines 110-131,
src/app.py lines 1223-1244): blank or whitespace-only cells become NULL;
otherwise an INTEGER column int-parses the cell and a REAL column
float-parses it, a parse failure becoming NULL; a TEXT column stores the
text unchanged. -/
def coerce_cell (ty : SqlType) (v : String) : Value :=
  if v.data = [] ∨ pyStrip v.data = [] then .null
  else
    match ty with
    | .INTEGER => match pyInt v with
      | some i => .int i
      | none => .null
    | .REAL => match pyFloat v with
      | some (.finite q) => .real q
      | some (.infinite b) => .realInf b
      | some .nan => .realNaN
      | none => .null
    | .TEXT => .text v

/-- `csv.DictReader` cell access `row[name]`: with duplicate header names
the later column's value wins (later zip pairs overwrite earlier dict
entries); a missing trailing cell reads as the restval `None`, which every
use site treats exactly like the empty string (both are falsy and both
coerce to NULL), so it is modelled as `""`. -/
def dictRowGet : List String → List String → String → String
  | [], _, _ => ""
  | h :: hs, row, key =>
    if hs.contains key then dictRowGet hs row.tail key
    else if h = key then row.headD "" else dictRowGet hs row.tail key

/-- Python dict insertion: an existing key keeps its position and takes the
new value, a new key is appended. -/
def pyInsert {α : Type} (d : List (String × α)) (kv : String × α) : List (String × α) :=
  if kv.1 ∈ d.map Prod.fst then
    d.map (fun p => if p.1 = kv.1 then (p.1, kv.2) else p)
  else d ++ [kv]

/-- Python dict lookup with a fallback default. -/
def lookupD {α : Type} (d : List (String × α)) (k : String) (dflt : α) : α :=
  match d.find? (fun p => p.1 = k) with
  | some p => p.2
  | none => dflt

/-- The `column_types` dict of the ingestion paths: for each (original,
cleaned) header pair, infer a type from that original column's values and
store it under the cleaned name (later duplicates overwriting earlier
ones).  `colVals` selects the examined values of one original column. -/
def columnTypes (header cleaned : List String) (colVals : String → List String) :
    List (String × SqlType) :=
  (header.zip cleaned).foldl
    (fun m oc => pyInsert m (oc.2, infer_column_type (colVals oc.1))) []

/-- The coerced row block (`data_to_insert`) shared by both ingestion
paths: every row is mapped independently, and within a row every (original,
cleaned) column pair coerces its own cell against the column's fixed type. -/
def dataToInsert (header cleaned : List String) (types : List (String × SqlType))
    (rows : List (List String)) : List (List Value) :=
  rows.map (fun row =>
    (header.zip cleaned).map (fun oc =>
      coerce_cell (lookupD types oc.2 .TEXT) (dictRowGet header row oc.1)))

/-- An ingested table: the cleaned column schema and the loaded rows. -/
structure Table where
  columns : List (String × SqlType)
  rows : List (List Value)
  deriving DecidableEq, Repr

/-- Structured failures of the upload ingestion path: the two handler-level
validations, and the engine rejecting one of the two statements the handler
executes (CREATE TABLE, or the bulk INSERT). -/
inductive UploadErr where
  | noColumns
  | noDataRows
  | createRejected
  | insertRejected
  deriving DecidableEq, Repr

/-- The `/api/upload` ingestion pipeline, src/app.py lines 1180-1248, after
CSV parsing: reject a header with no columns; clean the header names;
reject zero data rows; infer each column's type from its non-blank values
(`if row.get(orig_col)`); then execute the string-built CREATE TABLE and
the `executemany` of the coerced rows.  The engine's verdicts on those two
statements are abstracted as oracle parameters: `createOk` is whether the
engine accepts `CREATE TABLE t ("c1" ty1, ...)` for the given cleaned
names (both engines reject duplicate column names; a name containing a
stray double quote breaks the string-built DDL; PostgreSQL also rejects a
zero-length name), and `insertOk` whether it accepts the bulk insert of
the given coerced rows (sqlite3 accepts the `?` placeholders for these
value types; psycopg2 rejects `?` outright).  A rejected statement raises
into the handler's `except` with the transaction never committed, so no
table remains.  The second component records whether CREATE TABLE was
attempted. -/
def upload_model (createOk : List String → Bool)
    (insertOk : List String → List (List Value) → Bool)
    (header : List String) (rows : List (List String)) :
    Except UploadErr Table × Bool :=
  if header = [] then (.error .noColumns, false)
  else
    let cleaned := header.map clean_column_name
    if rows = [] then (.error .noDataRows, false)
    else
      let types := columnTypes header cleaned
        (fun o => (rows.map (fun r => dictRowGet header r o)).filter (fun v => v ≠ ""))
      if createOk cleaned then
        if insertOk cleaned (dataToInsert header cleaned types rows) then
          (.ok ⟨cleaned.map (fun c => (c, lookupD types c .TEXT)),
                dataToInsert header cleaned types rows⟩, true)
        else (.error .insertRejected, true)
      else (.error .createRejected, true)

/-- The bulk-import pipeline `import_csv_to_sqlite` of
src/import_to_sqlite.py lines 63-138, after CSV parsing, on a
duplicate-free header (its CREATE TABLE succeeds): `none` when there are no
data rows (the early `return`), otherwise the created schema and the
coerced rows.  Unlike the upload path it infers types from all values of a
column, blanks included. -/
def import_csv_model (header : List String) (rows : List (List String)) :
    Option Table :=
  if rows = [] then none
  else
    let cleaned := header.map clean_column_name
    let types := columnTypes header cleaned
      (fun o => rows.map (fun r => dictRowGet header r o))
    some ⟨cleaned.map (fun c => (c, lookupD types c .TEXT)),
          dataToInsert header cleaned types rows⟩

/-- The table-name catalog of `quote_identifiers_for_postgres`
(src/app.py lines 184-198), in source order. -/
def tablesCatalog : List String :=
  ["election_Donor_Donations_Made", "election_Donor_Donations_Received",
   "election_Donor_Return", "election_Media_Advertisement_Details",
   "election_Media_Returns", "election_Senate_Groups_and_Candidate_Return_Summary",
   "election_Senate_Groups_and_Candidate_Donations", "election_Senate_Groups_and_Candidate_Expenses",
   "election_Senate_Groups_and_Candidate_Discretionary_Benefits",
   "election_Third_Party_Return_Donations_Made", "election_Third_Party_Return_Donations_Received",
   "election_Third_Party_Return_Expenditure",
   "annual_Donations_Made", "annual_Donor_Donations_Received", "annual_Donor_Returns",
   "annual_Party_Returns", "annual_MemberOfParliamentReturns",
   "annual_Significant_Third_Party_Returns", "annual_Third_Party_Returns",
   "annual_Third_Party_Donations_Received", "annual_Associated_Entity_Returns",
   "annual_Capital_Contributions", "annual_Detailed_Debts",
   "annual_Detailed_Discretionary_Benefits", "annual_Detailed_Receipts"]

/-- The column-name catalog of `quote_identifiers_for_postgres`
(src/app.py lines 201-214), in source order. -/
def columnsCatalog : List String :=
  ["Event", "Name", "Total_Receipts", "Total_Payments", "Total_Debts", "Financial_Year",
   "Donor_Name", "Donor_Code", "Donated_To", "Donated_To_Gift_Value", "Donated_To_Date_Of_Gift",
   "Donation_Made_To", "Donation_Received_From", "Value", "Date", "Party_Name", "Electorate_Name",
   "Total_Gift_Value", "Number_Of_Donors", "Total_Electoral_Expenditure",
   "Total_Donations_Received", "Number_of_Donors", "Total_Donations_Made",
   "Electoral_Expenditure", "Advertiser", "Advertiser_Type", "Amount",
   "Received_From", "Recipient_Name", "Receipt_Type",
   "Gift_From_Name", "Gift_From_Gift_Value", "Gift_From_Date_Of_Gift",
   "Third_Party_Name", "Third_Party_Code",
   "Donation_Value", "Date_Of_Donation",
   "Gift_Value", "Date_Of_Gift",
   "Return_Type_Candidate_Senate_Group"]

/-- Python `s.replace(pat, rep)`: leftmost non-overlapping occurrences,
scanning the original string; fuel `s.length` suffices because every step
consumes at least one character of `s` (the pattern is non-empty at every
use site). -/
def pyReplaceF (pat rep : List Char) : Nat → List Char → List Char
  | 0, s => s
  | n + 1, s =>
    if pat ≠ [] ∧ pat.isPrefixOf s then rep ++ pyReplaceF pat rep n (s.drop pat.length)
    else match s with
      | [] => []
      | c :: r => c :: pyReplaceF pat rep n r

/-- Python `s.replace(pat, rep)` with adequate fuel. -/
def pyReplace (pat rep s : List Char) : List Char :=
  pyReplaceF pat rep s.length s

/-- A `\w` word character of Python `re` (ASCII part). -/
def isWordChar (c : Char) : Bool :=
  ('a' ≤ c && c ≤ 'z') || ('A' ≤ c && c ≤ 'Z') || ('0' ≤ c && c ≤ '9') || c = '_'

/-- One column substitution
`re.sub(r'\b' + column + r'\b(?![^']*'(?:[^']*'[^']*')*[^']*$)', '"'+column+'"', sql)`
(src/app.py line 227).  The negative lookahead's pattern matches exactly
the suffixes containing an odd number of single quotes, so the sub rewrites
a whole-word occurrence of `column` exactly when the text after it holds an
even number of single quotes.  `prevW` is the word-character status of the
character before the current position (`false` at the start of the
string); `re.sub` scans the original text left to right, resuming after
each replaced occurrence. -/
def subColHit (col : List Char) (prevW : Bool) (s : List Char) : Bool :=
  !col.isEmpty && col.isPrefixOf s &&
  (match col.head? with
   | some c0 => prevW != isWordChar c0
   | none => false) &&
  (match (s.drop col.length).head? with
   | some cn => isWordChar (col.getLastD ' ') != isWordChar cn
   | none => isWordChar (col.getLastD ' ')) &&
  ((s.drop col.length).count apos % 2 == 0)

/-- The scanning loop of the column substitution. -/
def pySubColF (col : List Char) : Nat → Bool → List Char → List Char
  | 0, _, s => s
  | n + 1, prevW, s =>
    if subColHit col prevW s then
      '"' :: col ++ '"' :: pySubColF col n (isWordChar (col.getLastD ' ')) (s.drop col.length)
    else match s with
      | [] => []
      | c :: r => c :: pySubColF col n (isWordChar c) r

/-- The column substitution with adequate fuel. -/
def pySubCol (col s : List Char) : List Char :=
  pySubColF col s.length false s

/-- `quote_identifiers_for_postgres` of src/app.py lines 178-229.  The
process-wide `USE_POSTGRES` flag is passed explicitly.  For PostgreSQL it
first rewrites, for each cataloged table in order, the patterns
`' {table}'`, `'FROM {table}'` and `'from {table}'` to their double-quoted
forms, then applies the word-boundary regex substitution for each cataloged
column in order. -/
def quote_identifiers_for_postgres (usePostgres : Bool) (sql : String) : String :=
  if usePostgres = false then sql
  else
    let l := tablesCatalog.foldl (fun s t =>
      pyReplace ("from " ++ t).data ("from \"" ++ t ++ "\"").data
        (pyReplace ("FROM " ++ t).data ("FROM \"" ++ t ++ "\"").data
          (pyReplace (" " ++ t).data (" \"" ++ t ++ "\"").data s))) sql.data
    let l := columnsCatalog.foldl (fun s c => pySubCol c.data s) l
    ⟨l⟩

/-- An executor result: the uniform success/failure envelope
`execute_query` returns. -/
inductive QueryResult where
  | success (columns : List String) (data : List (List (String × Value))) (row_count : Nat)
  | failure (error : String)
  deriving DecidableEq, Repr

/-- Python `dict(zip(columns, row))`: pairs in column order, a repeated
column name keeping one entry that takes the last value. -/
def pyDictZip (cols : List String) (vals : List Value) : List (String × Value) :=
  (cols.zip vals).foldl pyInsert []

/-- Python `dict(pairs)` on an already keyed row. -/
def pyDictPairs (pairs : List (String × Value)) : List (String × Value) :=
  pairs.foldl pyInsert []

/-- The SQLite branch of `execute_query` (src/app.py lines 231-278): run
the SQL through the engine — modelled as an oracle returning either an
error message (any exception the `except` catches, stringified) or the
cursor description and the fetched rows — and on success marshal every row
as `dict(zip(columns, row))`, returning columns, data and
`row_count = len(results)`.  The function is total: no exception escapes. -/
def execute_query_sqlite
    (engine : String → Except String (List String × List (List Value)))
    (sql : String) : QueryResult :=
  match engine sql with
  | .error e => .failure e
  | .ok (desc, rows) =>
    let columns := desc
    let results := rows.map (fun row => pyDictZip columns row)
    .success columns results results.length

/-- The PostgreSQL branch of `execute_query`: the SQL is first adapted by
`quote_identifiers_for_postgres`; the engine's `RealDictCursor` rows are
keyed mappings; the column list is the first row's keys, or `[]` when no
rows came back. -/
def execute_query_pg
    (engine : String → Except String (List (List (String × Value))))
    (sql : String) : QueryResult :=
  match engine (quote_identifiers_for_postgres true sql) with
  | .error e => .failure e
  | .ok rows =>
    let results := rows.map pyDictPairs
    let columns := match results.head? with
      | some r => r.map Prod.fst
      | none => []
    .success columns results results.length

/-- Python `s.upper()` (ASCII). -/
def pyUpper (s : String) : String := ⟨s.data.map Char.toUpper⟩

/-- The blocked-keyword list of the `/query` handler (src/app.py line 303). -/
def dangerousKeywords : List String :=
  ["DROP", "DELETE", "UPDATE", "INSERT", "ALTER", "CREATE", "TRUNCATE"]

/-- Substring occurrence test on character lists. -/
def listContainsSub (pat : List Char) : List Char → Bool
  | [] => pat.isPrefixOf []
  | c :: r => pat.isPrefixOf (c :: r) || listContainsSub pat r

/-- Substring test (Python `in` on strings). -/
def strContains (hay pat : String) : Bool := listContainsSub pat.data hay.data

/-- The guard of the `/query` endpoint (src/app.py lines 285-310): an empty
body, a trimmed-and-uppercased text not starting with `SELECT`, or any
occurrence of a blocked keyword anywhere in the uppercased text yields the
error reply (`some message`); `none` means the SQL is passed on to
`execute_query`. -/
def query_guard (sql : String) : Option String :=
  if sql = "" then some "No SQL query provided"
  else
    let sql_upper := pyUpper ⟨pyStrip sql.data⟩
    if ¬ "SELECT".data.isPrefixOf sql_upper.data then some "Only SELECT queries are allowed"
    else
      match dangerousKeywords.find? (fun k => strContains sql_upper k) with
      | some k => some ("Keyword " ++ k ++ " is not allowed")
      | none => none

/-- The `/query` handler composed with the executor: a rejected request is
answered without consulting the engine. -/
def query_route (engine : String → Except String (List String × List (List Value)))
    (sql : String) : QueryResult :=
  match query_guard sql with
  | some e => .failure e
  | none => execute_query_sqlite engine sql

/-- The eight sequential one-character replacements of `clean_column_name`
as a single function. -/
def chainRepl (l : List Char) : List Char :=
  replChar apos []
    (replChar ',' []
      (replChar '.' ['_']
        (replChar '-' ['_']
          (replChar '/' ['_']
            (replChar ')' []
              (replChar '(' []
                (replChar ' ' ['_'] l)))))))

theorem replChar_append (t : Char) (r x y : List Char) :
    replChar t r (x ++ y) = replChar t r x ++ replChar t r y := by
  induction x with
  | nil => rfl
  | cons c x ih => simp [replChar, ih]

theorem chainRepl_append (x y : List Char) :
    chainRepl (x ++ y) = chainRepl x ++ chainRepl y := by
  simp [chainRepl, replChar_append]

theorem clean_column_name_eq (s : String) :
    clean_column_name s = ⟨stripUnd (pyCollapse (chainRepl (pyStrip s.data)))⟩ := rfl

theorem chainRepl_one (c : Char) :
    chainRepl [c] =
      (if c = ' ' ∨ c = '/' ∨ c = '-' ∨ c = '.' then ['_']
       else if c = '(' ∨ c = ')' ∨ c = ',' ∨ c = apos then []
       else [c]) := by
  by_cases h1 : c = ' '
  · subst h1; rfl
  by_cases h2 : c = '('
  · subst h2; rfl
  by_cases h3 : c = ')'
  · subst h3; rfl
  by_cases h4 : c = '/'
  · subst h4; rfl
  by_cases h5 : c = '-'
  · subst h5; rfl
  by_cases h6 : c = '.'
  · subst h6; rfl
  by_cases h7 : c = ','
  · subst h7; rfl
  by_cases h8 : c = apos
  · subst h8; rfl
  · have h8' : ¬ c = '\'' := h8
    simp [chainRepl, replChar, h1, h2, h3, h4, h5, h6, h7, h8', apos, h8]

theorem chainRepl_eq_charPassSpec (l : List Char) :
    chainRepl l = charPassSpec l := by
  induction l with
  | nil => rfl
  | cons c l ih =>
    have : chainRepl (c :: l) = chainRepl [c] ++ chainRepl l := by
      simpa using chainRepl_append [c] l
    rw [this, ih, chainRepl_one]
    rfl

theorem hasUU_nil : hasUU [] = false := rfl

theorem hasUU_single (c : Char) : hasUU [c] = false := rfl

theorem hasUU_cons2 (a b : Char) (r : List Char) :
    hasUU (a :: b :: r) = ((a = '_' && b = '_') || hasUU (b :: r)) := rfl

theorem hasUU_cons_of {t : List Char} (c : Char) (h : hasUU t = true) :
    hasUU (c :: t) = true := by
  cases t with
  | nil => simp [hasUU_nil] at h
  | cons d t' => rw [hasUU_cons2]; simp [h]

theorem replaceUU_cons2_t (a b : Char) (r : List Char) (h : a = '_' ∧ b = '_') :
    replaceUU (a :: b :: r) = '_' :: replaceUU r := by
  simp [replaceUU, h]

theorem replaceUU_cons2_f (a b : Char) (r : List Char) (h : ¬ (a = '_' ∧ b = '_')) :
    replaceUU (a :: b :: r) = a :: replaceUU (b :: r) := by
  simp [replaceUU, h]

theorem replaceUU_nil : replaceUU [] = [] := rfl

theorem replaceUU_single (c : Char) : replaceUU [c] = [c] := rfl

theorem replaceUU_cons_ne (b : Char) (r : List Char) (hb : b ≠ '_') :
    replaceUU (b :: r) = b :: replaceUU r := by
  cases r with
  | nil => rfl
  | cons d t => exact replaceUU_cons2_f b d t (fun h => hb h.1)

theorem replaceUU_length_le : ∀ l : List Char, (replaceUU l).length ≤ l.length := by
  intro l
  induction l using replaceUU.induct with
  | case1 a b r h ih => rw [replaceUU_cons2_t a b r h]; simp; omega
  | case2 a b r h ih => rw [replaceUU_cons2_f a b r h]; simpa using ih
  | case3 l h => cases l with
    | nil => simp [replaceUU_nil]
    | cons c r => cases r with
      | nil => simp [replaceUU_single]
      | cons d t => exact absurd rfl (h c d t)

theorem replaceUU_length_lt : ∀ l : List Char, hasUU l = true →
    (replaceUU l).length < l.length := by
  intro l
  induction l using replaceUU.induct with
  | case1 a b r h ih =>
    intro _
    rw [replaceUU_cons2_t a b r h]
    have := replaceUU_length_le r
    simp; omega
  | case2 a b r h ih =>
    intro huu
    rw [hasUU_cons2] at huu
    have hbr : hasUU (b :: r) = true := by
      rcases Bool.or_eq_true_iff.mp huu with h1 | h1
      · exact absurd (by simpa using h1) h
      · exact h1
    rw [replaceUU_cons2_f a b r h]
    have := ih hbr
    simpa using Nat.succ_lt_succ this
  | case3 l h =>
    intro huu
    cases l with
    | nil => simp [hasUU_nil] at huu
    | cons c r => cases r with
      | nil => simp [hasUU_single] at huu
      | cons d t => exact absurd rfl (h c d t)

theorem replaceUU_subset : ∀ l : List Char, ∀ a, a ∈ replaceUU l → a ∈ l := by
  intro l
  induction l using replaceUU.induct with
  | case1 a b r h ih =>
    intro x hx
    rw [replaceUU_cons2_t a b r h] at hx
    rcases List.mem_cons.mp hx with h1 | h1
    · exact List.mem_cons.mpr (Or.inl (h1.trans h.1.symm))
    · exact List.mem_cons.mpr (Or.inr (List.mem_cons.mpr (Or.inr (ih x h1))))
  | case2 a b r h ih =>
    intro x hx
    rw [replaceUU_cons2_f a b r h] at hx
    rcases List.mem_cons.mp hx with h1 | h1
    · exact List.mem_cons.mpr (Or.inl h1)
    · exact List.mem_cons.mpr (Or.inr (ih x h1))
  | case3 l h => intro x hx
                 cases l with
                 | nil => simp [replaceUU_nil] at hx
                 | cons c r => cases r with
                   | nil => simpa [replaceUU_single] using hx
                   | cons d t => exact absurd rfl (h c d t)

theorem collapseU_of_not (n : Nat) (l : List Char) (h : hasUU l = false) :
    collapseU n l = l := by
  cases n with
  | zero => rfl
  | succ n => simp [collapseU, h]

theorem collapseU_fix : ∀ n : Nat, ∀ l : List Char, l.length ≤ n →
    hasUU (collapseU n l) = false := by
  intro n
  induction n with
  | zero =>
    intro l hl
    have : l = [] := List.length_eq_zero.mp (Nat.le_zero.mp hl)
    subst this; rfl
  | succ n ih =>
    intro l hl
    by_cases h : hasUU l = true
    · have : collapseU (n + 1) l = collapseU n (replaceUU l) := by simp [collapseU, h]
      rw [this]
      exact ih _ (by have := replaceUU_length_lt l h; omega)
    · rw [collapseU_of_not _ _ (Bool.not_eq_true _ ▸ h)]
      exact Bool.not_eq_true _ ▸ h

theorem collapseU_subset : ∀ n : Nat, ∀ l : List Char, ∀ a, a ∈ collapseU n l → a ∈ l := by
  intro n
  induction n with
  | zero => intro l a h; exact h
  | succ n ih =>
    intro l a h
    by_cases huu : hasUU l = true
    · simp only [collapseU, huu, if_true] at h
      exact replaceUU_subset l a (ih (replaceUU l) a h)
    · rwa [collapseU_of_not _ _ (Bool.not_eq_true _ ▸ huu)] at h

theorem squeezeU_nil : squeezeU [] = [] := rfl

theorem squeezeU_single (c : Char) : squeezeU [c] = [c] := rfl

theorem squeezeU_cons2_t (a b : Char) (r : List Char) (h : a = '_' ∧ b = '_') :
    squeezeU (a :: b :: r) = squeezeU (b :: r) := by
  simp [squeezeU, h]

theorem squeezeU_cons2_f (a b : Char) (r : List Char) (h : ¬ (a = '_' ∧ b = '_')) :
    squeezeU (a :: b :: r) = a :: squeezeU (b :: r) := by
  simp [squeezeU, h]

theorem squeezeU_cons_ne (c : Char) (X : List Char) (hc : c ≠ '_') :
    squeezeU (c :: X) = c :: squeezeU X := by
  cases X with
  | nil => rfl
  | cons d t => exact squeezeU_cons2_f c d t (fun h => hc h.1)

theorem squeezeU_eq_self : ∀ l : List Char, hasUU l = false → squeezeU l = l := by
  intro l
  induction l using squeezeU.induct with
  | case1 => intro _; rfl
  | case2 c => intro _; rfl
  | case3 a b r h ih =>
    intro huu
    rw [hasUU_cons2] at huu
    simp [h.1, h.2] at huu
  | case4 a b r h ih =>
    intro huu
    rw [hasUU_cons2] at huu
    have : hasUU (b :: r) = false := by
      rcases Bool.or_eq_false_iff.mp huu with ⟨_, h2⟩
      exact h2
    rw [squeezeU_cons2_f a b r h, ih this]

theorem squeezeU_replaceUU_aux : ∀ n : Nat, ∀ l : List Char, l.length ≤ n →
    squeezeU (replaceUU l) = squeezeU l ∧
    squeezeU ('_' :: replaceUU l) = squeezeU ('_' :: l) := by
  intro n
  induction n with
  | zero =>
    intro l hl
    have : l = [] := List.length_eq_zero.mp (Nat.le_zero.mp hl)
    subst this; exact ⟨rfl, rfl⟩
  | succ n ih =>
    intro l hl
    match l with
    | [] => exact ⟨rfl, rfl⟩
    | [c] => rw [replaceUU_single]; exact ⟨rfl, rfl⟩
    | a :: b :: r =>
      have hr : r.length ≤ n := by simp at hl; omega
      have hbr : (b :: r).length ≤ n := by simp at hl ⊢; omega
      by_cases hab : a = '_' ∧ b = '_'
      · obtain ⟨ha, hb⟩ := hab
        subst ha; subst hb
        rw [replaceUU_cons2_t '_' '_' r ⟨rfl, rfl⟩]
        constructor
        · rw [squeezeU_cons2_t '_' '_' r ⟨rfl, rfl⟩]
          exact (ih r hr).2
        · rw [squeezeU_cons2_t '_' '_' (replaceUU r) ⟨rfl, rfl⟩,
              squeezeU_cons2_t '_' '_' ('_' :: r) ⟨rfl, rfl⟩,
              squeezeU_cons2_t '_' '_' r ⟨rfl, rfl⟩]
          exact (ih r hr).2
      · rw [replaceUU_cons2_f a b r hab]
        by_cases ha : a = '_'
        · subst ha
          have hb : b ≠ '_' := fun hb => hab ⟨rfl, hb⟩
          have hbody : squeezeU (replaceUU (b :: r)) = squeezeU (b :: r) := (ih _ hbr).1
          have goal1 : squeezeU ('_' :: replaceUU (b :: r)) = squeezeU ('_' :: b :: r) := by
            rw [replaceUU_cons_ne b r hb]
            rw [squeezeU_cons2_f '_' b (replaceUU r) (fun h => hb h.2),
                squeezeU_cons2_f '_' b r (fun h => hb h.2),
                squeezeU_cons_ne b (replaceUU r) hb, squeezeU_cons_ne b r hb]
            have : squeezeU (replaceUU r) = squeezeU r := (ih r hr).1
            rw [this]
          refine ⟨goal1, ?_⟩
          rw [squeezeU_cons2_t '_' '_' (replaceUU (b :: r)) ⟨rfl, rfl⟩,
              squeezeU_cons2_t '_' '_' (b :: r) ⟨rfl, rfl⟩]
          exact goal1
        · have goal1 : squeezeU (a :: replaceUU (b :: r)) = squeezeU (a :: b :: r) := by
            rw [squeezeU_cons_ne a (replaceUU (b :: r)) ha,
                squeezeU_cons_ne a (b :: r) ha, (ih _ hbr).1]
          refine ⟨goal1, ?_⟩
          rw [squeezeU_cons2_f '_' a (replaceUU (b :: r)) (fun h => ha h.2),
              squeezeU_cons2_f '_' a (b :: r) (fun h => ha h.2)]
          rw [goal1]

theorem squeezeU_replaceUU (l : List Char) :
    squeezeU (replaceUU l) = squeezeU l :=
  (squeezeU_replaceUU_aux l.length l le_rfl).1

theorem collapseU_eq_squeezeU : ∀ n : Nat, ∀ l : List Char, l.length ≤ n →
    collapseU n l = squeezeU l := by
  intro n
  induction n with
  | zero =>
    intro l hl
    have : l = [] := List.length_eq_zero.mp (Nat.le_zero.mp hl)
    subst this; rfl
  | succ n ih =>
    intro l hl
    by_cases h : hasUU l = true
    · have h1 : collapseU (n + 1) l = collapseU n (replaceUU l) := by simp [collapseU, h]
      rw [h1, ih _ (by have := replaceUU_length_lt l h; omega), squeezeU_replaceUU]
    · rw [collapseU_of_not _ _ (Bool.not_eq_true _ ▸ h)]
      exact (squeezeU_eq_self l (Bool.not_eq_true _ ▸ h)).symm

theorem pyCollapse_eq_squeezeU (l : List Char) : pyCollapse l = squeezeU l :=
  collapseU_eq_squeezeU l.length l le_rfl

theorem dropWhile_eq_self_of_all {p : Char → Bool} {l : List Char}
    (h : ∀ a ∈ l, p a = false) : l.dropWhile p = l := by
  cases l with
  | nil => rfl
  | cons c t => simp [List.dropWhile, h c (List.mem_cons_self c t)]

theorem dropWhile_eq_self_of_head {p : Char → Bool} {l : List Char}
    (h : ∀ c, l.head? = some c → p c = false) : l.dropWhile p = l := by
  cases l with
  | nil => rfl
  | cons c t => simp [List.dropWhile, h c rfl]

theorem dropEnd_eq_self_of_all {p : Char → Bool} {l : List Char}
    (h : ∀ a ∈ l, p a = false) : dropEnd p l = l := by
  unfold dropEnd
  rw [dropWhile_eq_self_of_all (fun a ha => h a (List.mem_reverse.mp ha))]
  exact l.reverse_reverse

theorem dropEnd_eq_self_of_getLast {p : Char → Bool} {l : List Char}
    (h : ∀ c, l.getLast? = some c → p c = false) : dropEnd p l = l := by
  unfold dropEnd
  rw [dropWhile_eq_self_of_head (fun c hc => h c ((List.head?_reverse l) ▸ hc))]
  exact l.reverse_reverse

theorem dropEnd_subset {p : Char → Bool} {l : List Char} :
    ∀ a, a ∈ dropEnd p l → a ∈ l := by
  intro a ha
  unfold dropEnd at ha
  rw [List.mem_reverse] at ha
  exact List.mem_reverse.mp ((List.dropWhile_sublist p).subset ha)

theorem dropEnd_prefix_rel {p : Char → Bool} (l : List Char) : dropEnd p l <+: l := by
  obtain ⟨t, ht⟩ := List.dropWhile_suffix (l := l.reverse) p
  refine ⟨t.reverse, ?_⟩
  show (List.dropWhile p l.reverse).reverse ++ t.reverse = l
  rw [← List.reverse_append, ht, List.reverse_reverse]

theorem head?_of_prefix {x y : List Char} (h : x <+: y) {c : Char}
    (hc : x.head? = some c) : y.head? = some c := by
  obtain ⟨t, rfl⟩ := h
  cases x with
  | nil => simp at hc
  | cons a r => simpa using hc

theorem pyStrip_subset {l : List Char} : ∀ a, a ∈ pyStrip l → a ∈ l := by
  intro a ha
  exact (List.dropWhile_sublist isPyWs).subset (dropEnd_subset a ha)

theorem pyStrip_eq_self_of_all {l : List Char}
    (h : ∀ a ∈ l, isPyWs a = false) : pyStrip l = l := by
  unfold pyStrip
  rw [dropWhile_eq_self_of_all h]
  exact dropEnd_eq_self_of_all h

theorem stripUnd_subset {l : List Char} : ∀ a, a ∈ stripUnd l → a ∈ l := by
  intro a ha
  exact (List.dropWhile_sublist _).subset (dropEnd_subset a ha)

theorem head?_dropWhile_false {p : Char → Bool} {l : List Char} {c : Char}
    (h : (l.dropWhile p).head? = some c) : p c = false := by
  have := List.head?_dropWhile_not p l
  rw [h] at this
  exact this

theorem stripUnd_head {l : List Char} {c : Char}
    (h : (stripUnd l).head? = some c) : c ≠ '_' := by
  have hpre := dropEnd_prefix_rel (p := fun c => c = '_') (l.dropWhile (fun c => c = '_'))
  have hh : (l.dropWhile (fun c => c = '_')).head? = some c := head?_of_prefix hpre h
  have := head?_dropWhile_false hh
  simpa using this

theorem stripUnd_getLast {l : List Char} {c : Char}
    (h : (stripUnd l).getLast? = some c) : c ≠ '_' := by
  unfold stripUnd dropEnd at h
  rw [List.getLast?_reverse] at h
  have := head?_dropWhile_false h
  simpa using this

theorem hasUU_append_left : ∀ x y : List Char, hasUU x = true → hasUU (x ++ y) = true := by
  intro x
  induction x with
  | nil => intro y h; simp [hasUU_nil] at h
  | cons c t ih =>
    intro y h
    cases t with
    | nil => simp [hasUU_single] at h
    | cons d r =>
      rw [hasUU_cons2] at h
      rcases Bool.or_eq_true_iff.mp h with h1 | h1
      · show hasUU (c :: d :: (r ++ y)) = true
        rw [hasUU_cons2, h1]; rfl
      · exact hasUU_cons_of c (ih y h1)

theorem hasUU_append_right : ∀ x y : List Char, hasUU y = true → hasUU (x ++ y) = true := by
  intro x
  induction x with
  | nil => intro y h; exact h
  | cons c t ih => intro y h; exact hasUU_cons_of c (ih y h)

theorem hasUU_prefix_false {x l : List Char} (h : x <+: l) (hl : hasUU l = false) :
    hasUU x = false := by
  obtain ⟨t, rfl⟩ := h
  by_cases hx : hasUU x = true
  · rw [hasUU_append_left x t hx] at hl; exact absurd hl (by simp)
  · exact Bool.not_eq_true _ ▸ hx

theorem hasUU_suffix_false {x l : List Char} (h : x <:+ l) (hl : hasUU l = false) :
    hasUU x = false := by
  obtain ⟨t, rfl⟩ := h
  by_cases hx : hasUU x = true
  · rw [hasUU_append_right t x hx] at hl; exact absurd hl (by simp)
  · exact Bool.not_eq_true _ ▸ hx

theorem hasUU_stripUnd_false {l : List Char} (hl : hasUU l = false) :
    hasUU (stripUnd l) = false :=
  hasUU_prefix_false (dropEnd_prefix_rel _)
    (hasUU_suffix_false (List.dropWhile_suffix _) hl)

theorem pyCollapse_fix (l : List Char) : hasUU (pyCollapse l) = false :=
  collapseU_fix l.length l le_rfl

theorem pyCollapse_of_not {l : List Char} (h : hasUU l = false) : pyCollapse l = l :=
  collapseU_of_not l.length l h

theorem pyCollapse_subset {l : List Char} : ∀ a, a ∈ pyCollapse l → a ∈ l :=
  collapseU_subset l.length l

theorem charPassSpec_mem : ∀ l : List Char, ∀ a, a ∈ charPassSpec l →
    a = '_' ∨ (a ∈ l ∧ ¬(a = ' ' ∨ a = '(' ∨ a = ')' ∨ a = '/' ∨ a = '-' ∨
      a = '.' ∨ a = ',' ∨ a = apos)) := by
  intro l
  induction l with
  | nil => intro a h; simp [charPassSpec] at h
  | cons c t ih =>
    intro a h
    simp only [charPassSpec, List.mem_append] at h
    rcases h with h | h
    · by_cases h1 : c = ' ' ∨ c = '/' ∨ c = '-' ∨ c = '.'
      · rw [if_pos h1] at h
        simp at h
        exact Or.inl h
      · by_cases h2 : c = '(' ∨ c = ')' ∨ c = ',' ∨ c = apos
        · rw [if_neg h1, if_pos h2] at h
          simp at h
        · rw [if_neg h1, if_neg h2] at h
          simp at h
          subst h
          refine Or.inr ⟨List.mem_cons_self _ _, ?_⟩
          intro hs
          rcases hs with hs | hs | hs | hs | hs | hs | hs | hs
          · exact h1 (Or.inl hs)
          · exact h2 (Or.inl hs)
          · exact h2 (Or.inr (Or.inl hs))
          · exact h1 (Or.inr (Or.inl hs))
          · exact h1 (Or.inr (Or.inr (Or.inl hs)))
          · exact h1 (Or.inr (Or.inr (Or.inr hs)))
          · exact h2 (Or.inr (Or.inr (Or.inl hs)))
          · exact h2 (Or.inr (Or.inr (Or.inr hs)))
    · rcases ih a h with h' | ⟨hmem, hns⟩
      · exact Or.inl h'
      · exact Or.inr ⟨List.mem_cons.mpr (Or.inr hmem), hns⟩

theorem charPassSpec_eq_self : ∀ l : List Char,
    (∀ a ∈ l, ¬(a = ' ' ∨ a = '(' ∨ a = ')' ∨ a = '/' ∨ a = '-' ∨
      a = '.' ∨ a = ',' ∨ a = apos)) → charPassSpec l = l := by
  intro l
  induction l with
  | nil => intro _; rfl
  | cons c t ih =>
    intro h
    have hc := h c (List.mem_cons_self c t)
    have h1 : ¬(c = ' ' ∨ c = '/' ∨ c = '-' ∨ c = '.') := by
      intro hx
      rcases hx with hx | hx | hx | hx
      · exact hc (Or.inl hx)
      · exact hc (Or.inr (Or.inr (Or.inr (Or.inl hx))))
      · exact hc (Or.inr (Or.inr (Or.inr (Or.inr (Or.inl hx)))))
      · exact hc (Or.inr (Or.inr (Or.inr (Or.inr (Or.inr (Or.inl hx))))))
    have h2 : ¬(c = '(' ∨ c = ')' ∨ c = ',' ∨ c = apos) := by
      intro hx
      rcases hx with hx | hx | hx | hx
      · exact hc (Or.inr (Or.inl hx))
      · exact hc (Or.inr (Or.inr (Or.inl hx)))
      · exact hc (Or.inr (Or.inr (Or.inr (Or.inr (Or.inr (Or.inr (Or.inl hx)))))))
      · exact hc (Or.inr (Or.inr (Or.inr (Or.inr (Or.inr (Or.inr (Or.inr hx)))))))
    simp only [charPassSpec, if_neg h1, if_neg h2]
    rw [ih (fun a ha => h a (List.mem_cons.mpr (Or.inr ha)))]
    rfl

/-- C2: the claim states that every one of the eight characters (space,
parentheses, slash, hyphen, period, comma, apostrophe) is replaced by an
underscore.  The code instead deletes `(`, `)`, `,` and `'`: on the input
"a(b" the code produces "ab", while the claim's algorithm (the same
pipeline with all eight characters mapping to underscore) produces "a_b". -/
theorem c2_counterexample :
    clean_column_name "a(b" = "ab" ∧
    (⟨stripUnd (pyCollapse (replChar apos ['_'] (replChar ',' ['_'] (replChar '.' ['_']
      (replChar '-' ['_'] (replChar '/' ['_'] (replChar ')' ['_'] (replChar '(' ['_']
        (replChar ' ' ['_'] (pyStrip "a(b".data))))))))))⟩ : String) = "a_b" ∧
    ("ab" : String) ≠ "a_b" := by
  refine ⟨by decide, by decide, by decide⟩

/-- C2 (amended): `clean` trims surrounding whitespace, then replaces each
occurrence of space, `/`, `-`, `.` with an underscore and removes each
occurrence of `(`, `)`, `,`, `'`, then collapses every run of two or more
underscores into a single underscore, then strips leading and trailing
underscores; no input is rejected (the function is total).  Proved as the
equality of `clean_column_name` (translated from the source's sequential
replacements and fixpoint loop) with `clean_amended` (written from the
amended specification wording as a single character pass and a run
squeeze). -/
theorem c2_thm : ∀ s : String, clean_column_name s = clean_amended s := by
  intro s
  rw [clean_column_name_eq, chainRepl_eq_charPassSpec, pyCollapse_eq_squeezeU]
  rfl

/-- C8: idempotence fails on the code as claimed for all inputs: on
"_<tab>a" the first clean strips the leading underscore, exposing a tab
that the second clean then strips, so the two results differ. -/
theorem c8_counterexample :
    clean_column_name (clean_column_name "_\ta") ≠ clean_column_name "_\ta" := by
  decide

/-- C8 (amended): the sanitizer is idempotent on every string whose
characters are ASCII and whose only whitespace character is the space:
`clean (clean s) = clean s`.  (The counterexample above shows the
restriction is needed: an inner non-space whitespace character can be
exposed at the boundary by the final underscore strip and is then removed
by the second application.) -/
theorem c8_thm (s : String)
    (h : ∀ c ∈ s.data, c.toNat < 128 ∧ (isPyWs c = true → c = ' ')) :
    clean_column_name (clean_column_name s) = clean_column_name s := by
  have h1 : ∀ a ∈ pyStrip s.data, isPyWs a = true → a = ' ' :=
    fun a ha => (h a (pyStrip_subset a ha)).2
  have h2 : ∀ a ∈ charPassSpec (pyStrip s.data),
      ¬(a = ' ' ∨ a = '(' ∨ a = ')' ∨ a = '/' ∨ a = '-' ∨
        a = '.' ∨ a = ',' ∨ a = apos) ∧ isPyWs a = false := by
    intro a ha
    rcases charPassSpec_mem _ a ha with h' | ⟨hmem, hns⟩
    · subst h'
      exact ⟨by decide, by decide⟩
    · refine ⟨hns, ?_⟩
      by_cases hw : isPyWs a = true
      · exact absurd (Or.inl (h1 a hmem hw)) hns
      · exact Bool.not_eq_true _ ▸ hw
  have h3mem : ∀ a ∈ pyCollapse (charPassSpec (pyStrip s.data)),
      ¬(a = ' ' ∨ a = '(' ∨ a = ')' ∨ a = '/' ∨ a = '-' ∨
        a = '.' ∨ a = ',' ∨ a = apos) ∧ isPyWs a = false :=
    fun a ha => h2 a (pyCollapse_subset a ha)
  have h3uu : hasUU (pyCollapse (charPassSpec (pyStrip s.data))) = false :=
    pyCollapse_fix _
  have h4mem : ∀ a ∈ stripUnd (pyCollapse (charPassSpec (pyStrip s.data))),
      ¬(a = ' ' ∨ a = '(' ∨ a = ')' ∨ a = '/' ∨ a = '-' ∨
        a = '.' ∨ a = ',' ∨ a = apos) ∧ isPyWs a = false :=
    fun a ha => h3mem a (stripUnd_subset a ha)
  have h4uu : hasUU (stripUnd (pyCollapse (charPassSpec (pyStrip s.data)))) = false :=
    hasUU_stripUnd_false h3uu
  have hclean : clean_column_name s =
      ⟨stripUnd (pyCollapse (charPassSpec (pyStrip s.data)))⟩ := by
    rw [clean_column_name_eq, chainRepl_eq_charPassSpec]
  rw [hclean, clean_column_name_eq, chainRepl_eq_charPassSpec]
  show (⟨stripUnd (pyCollapse (charPassSpec (pyStrip
    (stripUnd (pyCollapse (charPassSpec (pyStrip s.data)))))))⟩ : String) = _
  have e1 : pyStrip (stripUnd (pyCollapse (charPassSpec (pyStrip s.data)))) =
      stripUnd (pyCollapse (charPassSpec (pyStrip s.data))) :=
    pyStrip_eq_self_of_all (fun a ha => (h4mem a ha).2)
  rw [e1]
  have e2 : charPassSpec (stripUnd (pyCollapse (charPassSpec (pyStrip s.data)))) =
      stripUnd (pyCollapse (charPassSpec (pyStrip s.data))) :=
    charPassSpec_eq_self _ (fun a ha => (h4mem a ha).1)
  rw [e2]
  have e3 : pyCollapse (stripUnd (pyCollapse (charPassSpec (pyStrip s.data)))) =
      stripUnd (pyCollapse (charPassSpec (pyStrip s.data))) :=
    pyCollapse_of_not h4uu
  rw [e3]
  have e4 : stripUnd (stripUnd (pyCollapse (charPassSpec (pyStrip s.data)))) =
      stripUnd (pyCollapse (charPassSpec (pyStrip s.data))) := by
    have hd := dropWhile_eq_self_of_head
      (l := stripUnd (pyCollapse (charPassSpec (pyStrip s.data)))) (p := fun c => c = '_')
      (fun c hc => decide_eq_false (stripUnd_head hc))
    have hg := dropEnd_eq_self_of_getLast
      (l := stripUnd (pyCollapse (charPassSpec (pyStrip s.data)))) (p := fun c => c = '_')
      (fun c hc => decide_eq_false (stripUnd_getLast hc))
    show dropEnd (fun c => c = '_')
      ((stripUnd (pyCollapse (charPassSpec (pyStrip s.data)))).dropWhile (fun c => c = '_')) = _
    rw [hd]
    exact hg
  rw [e4]

/-- C8 witness: the amended theorem applied at the concrete input
"Ab c_d", whose characters are ASCII with space as the only whitespace. -/
theorem c8_witness :
    clean_column_name (clean_column_name "Ab c_d") = clean_column_name "Ab c_d" :=
  c8_thm "Ab c_d" (by decide)

/-- C4: `infer_column_type` discards empty/whitespace-only values, returns
TEXT when none remain, and otherwise decides INTEGER/REAL/TEXT from the
first 100 surviving values only: the concrete examples of the claim hold,
a non-numeric value after 100 leading numeric survivors does not change
the result, and in general the result depends only on the first 100
surviving values. -/
theorem c4_thm :
    infer_column_type [] = SqlType.TEXT ∧
    infer_column_type ["1", "2", "3"] = SqlType.INTEGER ∧
    infer_column_type ["1", "2.5"] = SqlType.REAL ∧
    infer_column_type ["1", "abc"] = SqlType.TEXT ∧
    infer_column_type (List.replicate 100 "1" ++ ["abc"]) = SqlType.INTEGER ∧
    (∀ vs : List String, nonEmptyVals vs = [] → infer_column_type vs = SqlType.TEXT) ∧
    (∀ vs ws : List String, (nonEmptyVals vs).take 100 = (nonEmptyVals ws).take 100 →
      infer_column_type vs = infer_column_type ws) := by
  refine ⟨by decide, by decide, by decide, by decide, by decide, ?_, ?_⟩
  · intro vs h
    simp [infer_column_type, h]
  · intro vs ws hq
    by_cases hempty : nonEmptyVals vs = []
    · have hw : nonEmptyVals ws = [] := by
        have ht : (nonEmptyVals ws).take 100 = [] := by rw [← hq, hempty]; rfl
        rcases List.take_eq_nil_iff.mp ht with h | h
        · exact absurd h (by decide)
        · exact h
      simp [infer_column_type, hempty, hw]
    · have hw : ¬ nonEmptyVals ws = [] := by
        intro hww
        apply hempty
        have ht : (nonEmptyVals vs).take 100 = [] := by rw [hq, hww]; rfl
        rcases List.take_eq_nil_iff.mp ht with h | h
        · exact absurd h (by decide)
        · exact h
      simp only [infer_column_type, if_neg hempty, if_neg hw, hq]

/-- C4 witness: the general TEXT-on-no-survivors part of the theorem
applied at the concrete input `["", " "]`. -/
theorem c4_witness : infer_column_type ["", " "] = SqlType.TEXT :=
  c4_thm.2.2.2.2.2.1 ["", " "] (by decide)

/-- C3: the claim states the cleaned columns are ["Donor_Name", "Amount"].
The sanitizer deletes `(` and `)` but no rule touches `$`, so
"Amount ($)" cleans to "Amount_$", not "Amount": the ingested table's
column names differ from the claimed ones. -/
theorem c3_counterexample :
    (import_csv_model ["Donor Name", "Amount ($)"]
        [["Climate 200", "1500"], ["Acme Pty", "2500.50"]]).map
      (fun t => t.columns.map Prod.fst) = some ["Donor_Name", "Amount_$"] ∧
    some ["Donor_Name", "Amount_$"] ≠ some ["Donor_Name", "Amount"] := by
  exact ⟨by decide, by decide⟩

/-- C3 (amended): ingesting the CSV with header ["Donor Name","Amount ($)"]
and rows [["Climate 200","1500"], ["Acme Pty","2500.50"]] produces a table
with cleaned columns ["Donor_Name", "Amount_$"], inferred types
[TEXT, REAL], and exactly the two rows
{"Donor_Name": "Climate 200", "Amount_$": 1500.0} and
{"Donor_Name": "Acme Pty", "Amount_$": 2500.5}. -/
theorem c3_thm :
    import_csv_model ["Donor Name", "Amount ($)"]
        [["Climate 200", "1500"], ["Acme Pty", "2500.50"]] =
      some ⟨[("Donor_Name", SqlType.TEXT), ("Amount_$", SqlType.REAL)],
            [[Value.text "Climate 200", Value.real 1500],
             [Value.text "Acme Pty", Value.real (5001 / 2 : ℚ)]]⟩ := by
  set_option maxRecDepth 4000 in with_unfolding_all rfl

theorem pyInsert_fresh {α : Type} (d : List (String × α)) (kv : String × α)
    (h : kv.1 ∉ d.map Prod.fst) : pyInsert d kv = d ++ [kv] := by
  simp [pyInsert, h]

theorem foldl_pyInsert_fresh {α : Type} :
    ∀ (kvs : List (String × α)) (acc : List (String × α)),
    (kvs.map Prod.fst).Nodup →
    (∀ k ∈ kvs.map Prod.fst, k ∉ acc.map Prod.fst) →
    kvs.foldl pyInsert acc = acc ++ kvs := by
  intro kvs
  induction kvs with
  | nil => intro acc _ _; simp
  | cons kv kvs ih =>
    intro acc hnd hdisj
    have hk : kv.1 ∉ acc.map Prod.fst :=
      hdisj kv.1 (List.mem_cons_self _ _)
    have step : List.foldl pyInsert acc (kv :: kvs) =
        List.foldl pyInsert (acc ++ [kv]) kvs := by
      simp [List.foldl_cons, pyInsert_fresh acc kv hk]
    rw [step, ih (acc ++ [kv]) (by simpa using hnd.of_cons) ?_]
    · simp
    · intro k hkmem
      have hne : k ≠ kv.1 := by
        intro he
        have : kv.1 ∈ kvs.map Prod.fst := he ▸ hkmem
        exact (List.nodup_cons.mp (by simpa using hnd)).1 this
      have : k ∉ acc.map Prod.fst := hdisj k (List.mem_cons.mpr (Or.inr hkmem))
      simp [hne, this]

theorem lookupD_mem {α : Type} :
    ∀ (l : List (String × α)) (k : String) (v : α) (dflt : α),
    (l.map Prod.fst).Nodup → (k, v) ∈ l → lookupD l k dflt = v := by
  intro l
  induction l with
  | nil => intro k v dflt _ h; simp at h
  | cons p t ih =>
    intro k v dflt hnd hmem
    rcases List.mem_cons.mp hmem with h | h
    · subst h
      simp [lookupD, List.find?_cons]
    · have hk : k ∈ t.map Prod.fst := List.mem_map.mpr ⟨(k, v), h, rfl⟩
      have hp : ¬ p.1 = k := by
        intro he
        exact (List.nodup_cons.mp (by simpa using hnd)).1 (he ▸ hk)
      have hstep : lookupD (p :: t) k dflt = lookupD t k dflt := by
        simp [lookupD, List.find?_cons, hp]
      rw [hstep]
      exact ih k v dflt (by simpa using hnd.of_cons) h

theorem headD_eq_getD_zero {α : Type} (l : List α) (d : α) : l.headD d = l.getD 0 d := by
  cases l <;> rfl

theorem tail_getD {α : Type} (l : List α) (j : Nat) (d : α) :
    l.tail.getD j d = l.getD (j + 1) d := by
  cases l <;> rfl

theorem dictRowGet_nodup :
    ∀ (hs : List String) (vs : List String) (k : String) (j : Nat),
    hs.Nodup → hs[j]? = some k → dictRowGet hs vs k = vs.getD j "" := by
  intro hs
  induction hs with
  | nil => intro vs k j _ h; simp at h
  | cons h t ih =>
    intro vs k j hnd hj
    cases j with
    | zero =>
      have hk : k = h := by simpa using hj.symm
      subst hk
      have hnotin : k ∉ t := (List.nodup_cons.mp hnd).1
      have hcont : t.contains k = false := by simpa using hnotin
      rw [show dictRowGet (k :: t) vs k = vs.headD "" from by simp [dictRowGet, hcont, hnotin]]
      cases vs <;> rfl
    | succ j =>
      have hjt : t[j]? = some k := by simpa using hj
      have hkt : k ∈ t := by
        rw [← List.get?_eq_getElem?] at hjt
        exact List.get?_mem hjt
      rw [show dictRowGet (h :: t) vs k = dictRowGet t vs.tail k from by
        simp [dictRowGet, hkt]]
      rw [ih vs.tail k j (List.nodup_cons.mp hnd).2 hjt]
      exact tail_getD vs j ""

theorem pyDictZip_nodup (cols : List String) (vals : List Value)
    (hnd : cols.Nodup) (hlen : vals.length = cols.length) :
    pyDictZip cols vals = cols.zip vals := by
  unfold pyDictZip
  rw [foldl_pyInsert_fresh (cols.zip vals) []]
  · simp
  · rw [List.map_fst_zip cols vals (le_of_eq hlen.symm)]
    exact hnd
  · intro k _ hk
    simp at hk

theorem pyDictZip_length (cols : List String) (vals : List Value)
    (hnd : cols.Nodup) (hlen : vals.length = cols.length) :
    (pyDictZip cols vals).length = cols.length := by
  rw [pyDictZip_nodup cols vals hnd hlen]
  simp [List.length_zip, hlen]

/-- C9: the claimed invariant fails when a query's output has repeated
column names: `dict(zip(columns, row))` collapses equal keys, so with
cursor description ["a", "a"] and the single row (1, 2) the executor
returns a column list of length 2 but a row mapping with a single key
(holding the later value). -/
theorem c9_counterexample :
    execute_query_sqlite
        (fun _ => Except.ok (["a", "a"], [[Value.int 1, Value.int 2]])) "SELECT" =
      QueryResult.success ["a", "a"] [[("a", Value.int 2)]] 1 ∧
    (["a", "a"] : List String).length = 2 ∧
    ([("a", Value.int 2)] : List (String × Value)).length = 1 ∧
    (2 : Nat) ≠ 1 := by
  exact ⟨by decide, by decide, by decide, by decide⟩

/-- C9 (amended): for every successful SQLite-branch result whose engine
column description has no repeated names (and whose rows have one value
per column, as the engine guarantees), the column list length equals the
key count of every row mapping, and the data rows are exactly the engine's
rows, in the engine's order, each zipped with the column list. -/
theorem c9_thm
    (engine : String → Except String (List String × List (List Value)))
    (sql : String) (desc : List String) (rows : List (List Value))
    (heng : engine sql = Except.ok (desc, rows)) (hnd : desc.Nodup)
    (hlen : ∀ r ∈ rows, r.length = desc.length) :
    execute_query_sqlite engine sql =
      QueryResult.success desc (rows.map (fun r => desc.zip r)) rows.length ∧
    ∀ r ∈ rows, (pyDictZip desc r).length = desc.length := by
  constructor
  · unfold execute_query_sqlite
    rw [heng]
    have hmap : rows.map (fun r => pyDictZip desc r) = rows.map (fun r => desc.zip r) :=
      List.map_congr_left (fun r hr => pyDictZip_nodup desc r hnd (hlen r hr))
    simp [hmap]
  · intro r hr
    exact pyDictZip_length desc r hnd (hlen r hr)

/-- C9 witness: the amended theorem applied to a concrete engine answer
with distinct columns ["a", "b"] and one row. -/
theorem c9_witness :
    execute_query_sqlite
        (fun _ => Except.ok (["a", "b"], [[Value.int 1, Value.text "x"]])) "SELECT" =
      QueryResult.success ["a", "b"]
        [[("a", Value.int 1), ("b", Value.text "x")]] 1 ∧
    ∀ r ∈ [[Value.int 1, Value.text "x"]],
      (pyDictZip ["a", "b"] r).length = (["a", "b"] : List String).length := by
  have h := c9_thm (fun _ => Except.ok (["a", "b"], [[Value.int 1, Value.text "x"]]))
    "SELECT" ["a", "b"] [[Value.int 1, Value.text "x"]] rfl (by decide) (by decide)
  exact ⟨h.1, h.2⟩

/-- C5: `execute_query` is a total function of the engine's answer (the
`try`/`except` catches every exception): on an engine failure it returns
the failure envelope carrying the engine's message — non-empty whenever
the stringified exception is non-empty — and on success it returns the
success envelope whose `row_count` equals the number of marshalled rows.
Stated for both the SQLite branch and the PostgreSQL branch (whose query
is first adapted by the dialect rewriter). -/
theorem c5_thm
    (engS : String → Except String (List String × List (List Value)))
    (engP : String → Except String (List (List (String × Value))))
    (sql : String)
    (hS : ∀ e, engS sql = Except.error e → e ≠ "")
    (hP : ∀ e, engP (quote_identifiers_for_postgres true sql) = Except.error e → e ≠ "") :
    ((∃ e, execute_query_sqlite engS sql = QueryResult.failure e ∧ e ≠ "") ∨
     (∃ cols data, execute_query_sqlite engS sql = QueryResult.success cols data data.length)) ∧
    ((∃ e, execute_query_pg engP sql = QueryResult.failure e ∧ e ≠ "") ∨
     (∃ cols data, execute_query_pg engP sql = QueryResult.success cols data data.length)) := by
  constructor
  · cases hcase : engS sql with
    | error e =>
      exact Or.inl ⟨e, by simp [execute_query_sqlite, hcase], hS e hcase⟩
    | ok res =>
      refine Or.inr ⟨res.1, (res.2).map (fun row => pyDictZip res.1 row), ?_⟩
      simp [execute_query_sqlite, hcase]
  · cases hcase : engP (quote_identifiers_for_postgres true sql) with
    | error e =>
      exact Or.inl ⟨e, by simp [execute_query_pg, hcase], hP e hcase⟩
    | ok rows =>
      refine Or.inr ⟨?_, rows.map pyDictPairs, ?_⟩
      · exact match (rows.map pyDictPairs).head? with
          | some r => r.map Prod.fst
          | none => []
      · simp [execute_query_pg, hcase]

/-- C5 witness: the theorem applied to concrete failing engines whose
messages are the non-empty strings an engine produces for an unknown
identifier. -/
theorem c5_witness :
    ((∃ e, execute_query_sqlite (fun _ => Except.error "no such column: Zzz") "SELECT 1" =
        QueryResult.failure e ∧ e ≠ "") ∨
     (∃ cols data, execute_query_sqlite (fun _ => Except.error "no such column: Zzz") "SELECT 1" =
        QueryResult.success cols data data.length)) ∧
    ((∃ e, execute_query_pg (fun _ => Except.error "relation does not exist") "SELECT 1" =
        QueryResult.failure e ∧ e ≠ "") ∨
     (∃ cols data, execute_query_pg (fun _ => Except.error "relation does not exist") "SELECT 1" =
        QueryResult.success cols data data.length)) :=
  c5_thm (fun _ => Except.error "no such column: Zzz")
    (fun _ => Except.error "relation does not exist") "SELECT 1"
    (fun e h => by injection h with h2; subst h2; decide)
    (fun e h => by injection h with h2; subst h2; decide)

/-- C10: the `/query` guard executes the submitted SQL exactly when the
trimmed-and-uppercased text starts with SELECT and contains none of the
blocked substrings DROP, DELETE, UPDATE, INSERT, ALTER, CREATE, TRUNCATE
anywhere; otherwise the handler answers with a failure envelope without
consulting the engine.  In particular a legitimate SELECT whose string
literal contains "CREATED" is rejected, because CREATED contains CREATE. -/
theorem c10_thm :
    (∀ sql : String, query_guard sql = none ↔
      ("SELECT".data.isPrefixOf (pyUpper ⟨pyStrip sql.data⟩).data = true ∧
       ∀ k ∈ dangerousKeywords, strContains (pyUpper ⟨pyStrip sql.data⟩) k = false)) ∧
    query_guard "SELECT * FROM t WHERE note = 'CREATED'" =
      some "Keyword CREATE is not allowed" ∧
    (∀ sql e, query_guard sql = some e →
      ∀ eng eng', query_route eng sql = QueryResult.failure e ∧
        query_route eng sql = query_route eng' sql) := by
  refine ⟨?_, by decide, ?_⟩
  · intro sql
    by_cases h0 : sql = ""
    · subst h0
      constructor
      · intro h
        simp [query_guard] at h
      · intro ⟨hs, _⟩
        exact absurd hs (by decide)
    · simp only [query_guard, if_neg h0]
      by_cases hs : "SELECT".data.isPrefixOf (pyUpper ⟨pyStrip sql.data⟩).data = true
      · rw [if_neg (by simp [hs])]
        cases hf : dangerousKeywords.find? (fun k => strContains (pyUpper ⟨pyStrip sql.data⟩) k) with
        | some k =>
          simp only [hf]
          constructor
          · intro h; exact absurd h (by simp)
          · intro ⟨_, hall⟩
            have hk := List.find?_some hf
            have hmem := List.mem_of_find?_eq_some hf
            rw [hall k hmem] at hk
            exact absurd hk (by simp)
        | none =>
          simp only [hf]
          constructor
          · intro _
            exact ⟨hs, fun k hk => by
              have := List.find?_eq_none.mp hf k hk
              simpa using this⟩
          · intro _; trivial
      · rw [if_pos (by simpa using hs)]
        constructor
        · intro h; exact absurd h (by simp)
        · intro ⟨hstart, _⟩; exact absurd hstart hs
  · intro sql e h eng eng'
    unfold query_route
    rw [h]
    exact ⟨rfl, rfl⟩

/-- C10 witness: the characterization applied at the concrete accepted
query "SELECT 1". -/
theorem c10_witness : query_guard "SELECT 1" = none :=
  (c10_thm.1 "SELECT 1").mpr ⟨by decide, by decide⟩

theorem columnTypes_keys (header : List String) (colVals : String → List String) :
    ((header.zip (header.map clean_column_name)).map
      (fun oc => (oc.2, infer_column_type (colVals oc.1)))).map Prod.fst =
    header.map clean_column_name := by
  rw [List.map_map]
  have : (Prod.fst ∘ fun oc : String × String => (oc.2, infer_column_type (colVals oc.1))) =
      Prod.snd := by
    funext oc; rfl
  rw [this]
  exact List.map_snd_zip header (header.map clean_column_name) (by simp)

theorem columnTypes_eq (header : List String) (colVals : String → List String)
    (hnd : (header.map clean_column_name).Nodup) :
    columnTypes header (header.map clean_column_name) colVals =
      (header.zip (header.map clean_column_name)).map
        (fun oc => (oc.2, infer_column_type (colVals oc.1))) := by
  unfold columnTypes
  rw [show (header.zip (header.map clean_column_name)).foldl
      (fun m oc => pyInsert m (oc.2, infer_column_type (colVals oc.1))) [] =
      ((header.zip (header.map clean_column_name)).map
        (fun oc => (oc.2, infer_column_type (colVals oc.1)))).foldl pyInsert [] from
    (List.foldl_map _ pyInsert _ []).symm]
  rw [foldl_pyInsert_fresh _ []]
  · simp
  · rw [columnTypes_keys]; exact hnd
  · intro k _ hk; simp at hk

theorem columnTypes_lookup (header : List String) (colVals : String → List String)
    (hnd : (header.map clean_column_name).Nodup) (j : Nat) (hj : j < header.length) :
    lookupD (columnTypes header (header.map clean_column_name) colVals)
      (clean_column_name (header.getD j "")) SqlType.TEXT =
      infer_column_type (colVals (header.getD j "")) := by
  rw [columnTypes_eq header colVals hnd]
  apply lookupD_mem
  · rw [columnTypes_keys]; exact hnd
  · have hlen : j < ((header.zip (header.map clean_column_name)).map
        (fun oc => (oc.2, infer_column_type (colVals oc.1)))).length := by
      simp [List.length_zip]; omega
    have hel : ((header.zip (header.map clean_column_name)).map
        (fun oc => (oc.2, infer_column_type (colVals oc.1))))[j] =
        (clean_column_name (header.getD j ""), infer_column_type (colVals (header.getD j ""))) := by
      rw [List.getElem_map, List.getElem_zip, List.getElem_map]
      have : header[j] = header.getD j "" := (List.getD_eq_getElem header "" hj).symm
      rw [this]
    exact hel ▸ List.getElem_mem hlen

theorem dataToInsert_pointwise (header : List String) (rows : List (List String))
    (types : List (String × SqlType)) (tyAt : Nat → SqlType)
    (hhdr : header.Nodup)
    (htypes : ∀ j, j < header.length →
      lookupD types (clean_column_name (header.getD j "")) SqlType.TEXT = tyAt j) :
    ∀ (i : Nat) (r : List String), rows[i]? = some r →
      (dataToInsert header (header.map clean_column_name) types rows)[i]? =
        some ((List.range header.length).map
          (fun j => coerce_cell (tyAt j) (r.getD j ""))) := by
  intro i r hi
  unfold dataToInsert
  rw [List.getElem?_map, hi, Option.map_some']
  congr 1
  apply List.ext_getElem
  · simp [List.length_zip]
  · intro n h₁ h₂
    have hn : n < header.length := by
      simp [List.length_zip] at h₁
      omega
    simp only [List.getElem_map, List.getElem_zip, List.getElem_range]
    have e1 : dictRowGet header r (header[n]) = r.getD n "" := by
      apply dictRowGet_nodup header r _ n hhdr
      simp [hn]
    have e2 : header[n] = header.getD n "" := (List.getD_eq_getElem header "" hn).symm
    rw [e1, e2, htypes n hn]

/-- C7: during ingestion every cell is coerced independently.  Given the
handler-level validations (non-empty header and data, duplicate-free
cleaned names so the schema is well formed) and an engine that accepts the
CREATE and INSERT statements (oracle hypotheses — the engine can still
reject for reasons of its own, e.g. psycopg2 refusing the `?`
placeholders, but never because a cell failed to coerce: coercion happens
before the statements are issued and maps failures to NULL), the upload
succeeds keeping every input row (one output row per input row, in
order), and the cell at row `i`, column `j` of the created table is
exactly `coerce_cell` of that input cell against column `j`'s inferred
type; a blank cell is NULL, a parse failure on an INTEGER or REAL column
turns that single cell into NULL while every other cell of the block is
the independent coercion of its own input cell, and a TEXT column passes
a non-blank cell through unchanged. -/
theorem c7_thm (createOk : List String → Bool)
    (insertOk : List String → List (List Value) → Bool)
    (header : List String) (rows : List (List String))
    (h1 : header ≠ []) (h2 : rows ≠ [])
    (h3 : (header.map clean_column_name).Nodup)
    (h4 : createOk (header.map clean_column_name) = true)
    (h5 : ∀ cols data, insertOk cols data = true) :
    (∃ t, (upload_model createOk insertOk header rows).1 = Except.ok t ∧
      t.rows.length = rows.length ∧
      ∀ (i : Nat) (r : List String), rows[i]? = some r →
        t.rows[i]? = some ((List.range header.length).map (fun j =>
          coerce_cell
            (infer_column_type
              ((rows.map (fun rr => rr.getD j "")).filter (fun v => v ≠ "")))
            (r.getD j "")))) ∧
    coerce_cell SqlType.INTEGER "12x" = Value.null ∧
    coerce_cell SqlType.REAL "12x" = Value.null ∧
    (∀ ty v, pyStrip v.data = [] → coerce_cell ty v = Value.null) ∧
    (∀ v, v.data ≠ [] → pyStrip v.data ≠ [] →
      coerce_cell SqlType.TEXT v = Value.text v) := by
  have hhdr : header.Nodup := List.Nodup.of_map _ h3
  have main : (upload_model createOk insertOk header rows).1 = Except.ok
      ⟨(header.map clean_column_name).map (fun c => (c,
        lookupD (columnTypes header (header.map clean_column_name)
          (fun o => (rows.map (fun r => dictRowGet header r o)).filter (fun v => v ≠ "")))
          c SqlType.TEXT)),
       dataToInsert header (header.map clean_column_name)
        (columnTypes header (header.map clean_column_name)
          (fun o => (rows.map (fun r => dictRowGet header r o)).filter (fun v => v ≠ "")))
        rows⟩ := by
    simp only [upload_model]
    rw [if_neg h1, if_neg h2, if_pos h4, if_pos (h5 _ _)]
  refine ⟨⟨_, main, ?_, ?_⟩, by decide, by decide, ?_, ?_⟩
  · show (dataToInsert _ _ _ rows).length = rows.length
    unfold dataToInsert
    simp
  · show ∀ (i : Nat) (r : List String), rows[i]? = some r →
        (dataToInsert _ _ _ rows)[i]? = _
    apply dataToInsert_pointwise header rows _ _ hhdr
    intro j hj
    rw [columnTypes_lookup header _ h3 j hj]
    have : (rows.map (fun r => dictRowGet header r (header.getD j ""))) =
        rows.map (fun r => r.getD j "") := by
      apply List.map_congr_left
      intro r _
      apply dictRowGet_nodup header r _ j hhdr
      simp [List.getD_eq_getElem header "" hj, hj]
    rw [this]
  · intro ty v hv
    unfold coerce_cell
    rw [if_pos (Or.inr hv)]
  · intro v hv1 hv2
    simp [coerce_cell, hv1, hv2]

/-- C7 witness: the theorem applied at a concrete two-column upload whose
second column is TEXT because of a non-numeric value, with the engine
oracle that rejects exactly duplicate column names and accepts the
insert. -/
theorem c7_witness :
    ∃ t, (upload_model (fun cols => decide cols.Nodup) (fun _ _ => true)
        ["A", "B"] [["1", "2x"], ["3", "4"]]).1 = Except.ok t ∧
      t.rows.length = ([["1", "2x"], ["3", "4"]] : List (List String)).length ∧
      ∀ (i : Nat) (r : List String),
        ([["1", "2x"], ["3", "4"]] : List (List String))[i]? = some r →
        t.rows[i]? = some ((List.range (["A", "B"] : List String).length).map (fun j =>
          coerce_cell
            (infer_column_type
              ((([["1", "2x"], ["3", "4"]] : List (List String)).map
                (fun rr => rr.getD j "")).filter (fun v => v ≠ "")))
            (r.getD j ""))) :=
  (c7_thm (fun cols => decide cols.Nodup) (fun _ _ => true)
    ["A", "B"] [["1", "2x"], ["3", "4"]]
    (by decide) (by decide) (by decide) (by decide) (fun _ _ => rfl)).1

theorem listContainsSub_cons (pat : List Char) (c : Char) (r : List Char) :
    listContainsSub pat (c :: r) = (pat.isPrefixOf (c :: r) || listContainsSub pat r) := rfl

theorem occ_cons_of {pat r : List Char} (c : Char)
    (h : listContainsSub pat r = true) : listContainsSub pat (c :: r) = true := by
  rw [listContainsSub_cons, h, Bool.or_true]

theorem occ_of_isPrefixOf {pat s : List Char}
    (h : pat.isPrefixOf s = true) : listContainsSub pat s = true := by
  cases s with
  | nil => exact h
  | cons c r => rw [listContainsSub_cons, h, Bool.true_or]

theorem occ_append_right (pat x y : List Char)
    (h : listContainsSub pat y = true) : listContainsSub pat (x ++ y) = true := by
  induction x with
  | nil => exact h
  | cons c r ih => exact occ_cons_of c ih

theorem occ_pattern_append (a t : List Char) :
    ∀ s : List Char, listContainsSub (a ++ t) s = true → listContainsSub t s = true := by
  intro s
  induction s with
  | nil =>
    intro h
    have hp : (a ++ t) <+: ([] : List Char) := List.isPrefixOf_iff_prefix.mp h
    have : t = [] := by
      have := List.eq_nil_of_prefix_nil hp
      exact (List.append_eq_nil.mp this).2
    subst this
    exact occ_of_isPrefixOf (List.isPrefixOf_iff_prefix.mpr List.nil_prefix)
  | cons c r ih =>
    intro h
    rw [listContainsSub_cons] at h
    rcases Bool.or_eq_true_iff.mp h with h1 | h1
    · obtain ⟨rest, hrest⟩ := List.isPrefixOf_iff_prefix.mp h1
      have hcr : c :: r = a ++ (t ++ rest) := by
        rw [← hrest, List.append_assoc]
      rw [hcr]
      exact occ_append_right t a (t ++ rest)
        (occ_of_isPrefixOf (List.isPrefixOf_iff_prefix.mpr (List.prefix_append t rest)))
    · exact occ_cons_of c (ih h1)

theorem pyReplaceF_no_occ (pat rep : List Char) :
    ∀ (n : Nat) (s : List Char), listContainsSub pat s = false →
    pyReplaceF pat rep n s = s := by
  intro n
  induction n with
  | zero => intro s _; rfl
  | succ n ih =>
    intro s h
    have hpre : ¬ pat.isPrefixOf s = true := by
      intro hp
      rw [occ_of_isPrefixOf hp] at h
      exact absurd h (by simp)
    cases s with
    | nil =>
      simp only [pyReplaceF]
      rw [if_neg (fun hc => hpre hc.2)]
    | cons c r =>
      simp only [pyReplaceF]
      rw [if_neg (fun hc => hpre hc.2)]
      show c :: pyReplaceF pat rep n r = c :: r
      rw [ih r (by
        rw [listContainsSub_cons] at h
        exact (Bool.or_eq_false_iff.mp h).2)]

theorem pyReplace_no_occ (pat rep s : List Char)
    (h : listContainsSub pat s = false) : pyReplace pat rep s = s :=
  pyReplaceF_no_occ pat rep s.length s h

theorem pySubColF_no_occ (col : List Char) :
    ∀ (n : Nat) (prevW : Bool) (s : List Char), listContainsSub col s = false →
    pySubColF col n prevW s = s := by
  intro n
  induction n with
  | zero => intro _ s _; rfl
  | succ n ih =>
    intro prevW s h
    have hpre : col.isPrefixOf s = false := by
      by_cases hp : col.isPrefixOf s = true
      · rw [occ_of_isPrefixOf hp] at h
        exact absurd h (by simp)
      · exact Bool.not_eq_true _ ▸ hp
    have hhit : subColHit col prevW s = false := by
      simp [subColHit, hpre]
    cases s with
    | nil =>
      simp only [pySubColF]
      rw [if_neg (by rw [hhit]; simp)]
    | cons c r =>
      simp only [pySubColF]
      rw [if_neg (by rw [hhit]; simp)]
      show c :: pySubColF col n (isWordChar c) r = c :: r
      rw [ih (isWordChar c) r (by
        rw [listContainsSub_cons] at h
        exact (Bool.or_eq_false_iff.mp h).2)]

theorem pySubCol_no_occ (col s : List Char)
    (h : listContainsSub col s = false) : pySubCol col s = s :=
  pySubColF_no_occ col s.length false s h

theorem no_occ_of_append {t s : List Char} (a : List Char)
    (h : listContainsSub t s = false) : listContainsSub (a ++ t) s = false := by
  by_cases hx : listContainsSub (a ++ t) s = true
  · rw [occ_pattern_append a t s hx] at h
    exact absurd h (by simp)
  · exact Bool.not_eq_true _ ▸ hx

theorem tablesFold_no_occ :
    ∀ (ts : List String) (s : List Char),
    (∀ t ∈ ts, listContainsSub t.data s = false) →
    ts.foldl (fun s t =>
      pyReplace ("from " ++ t).data ("from \"" ++ t ++ "\"").data
        (pyReplace ("FROM " ++ t).data ("FROM \"" ++ t ++ "\"").data
          (pyReplace (" " ++ t).data (" \"" ++ t ++ "\"").data s))) s = s := by
  intro ts
  induction ts with
  | nil => intro s _; rfl
  | cons t ts ih =>
    intro s h
    have h0 := h t (List.mem_cons_self t ts)
    have e1 : pyReplace (" " ++ t).data (" \"" ++ t ++ "\"").data s = s :=
      pyReplace_no_occ _ _ s (no_occ_of_append " ".data h0)
    have e2 : pyReplace ("FROM " ++ t).data ("FROM \"" ++ t ++ "\"").data s = s :=
      pyReplace_no_occ _ _ s (no_occ_of_append "FROM ".data h0)
    have e3 : pyReplace ("from " ++ t).data ("from \"" ++ t ++ "\"").data s = s :=
      pyReplace_no_occ _ _ s (no_occ_of_append "from ".data h0)
    rw [List.foldl_cons, e1, e2, e3]
    exact ih s (fun u hu => h u (List.mem_cons.mpr (Or.inr hu)))

theorem colsFold_no_occ :
    ∀ (cs : List String) (s : List Char),
    (∀ c ∈ cs, listContainsSub c.data s = false) →
    cs.foldl (fun s c => pySubCol c.data s) s = s := by
  intro cs
  induction cs with
  | nil => intro s _; rfl
  | cons c cs ih =>
    intro s h
    rw [List.foldl_cons, pySubCol_no_occ c.data s (h c (List.mem_cons_self c cs))]
    exact ih s (fun u hu => h u (List.mem_cons.mpr (Or.inr hu)))

/-- C1: the claim says occurrences of cataloged table names inside
single-quoted string literals are left unchanged.  The table rewrite is a
plain textual `str.replace` of `' table'` with no literal protection: in
`FROM annual_Party_Returns WHERE Name = ' annual_Party_Returns'` the
space-preceded occurrence inside the string literal is also wrapped in
double quotes, so the adapter's output differs from the output the claim
mandates (identifiers quoted only outside literals). -/
theorem c1_counterexample :
    quote_identifiers_for_postgres true
        "FROM annual_Party_Returns WHERE Name = ' annual_Party_Returns'" =
      "FROM \"annual_Party_Returns\" WHERE \"Name\" = ' \"annual_Party_Returns\"'" ∧
    ("FROM \"annual_Party_Returns\" WHERE \"Name\" = ' \"annual_Party_Returns\"'" : String) ≠
      "FROM \"annual_Party_Returns\" WHERE \"Name\" = ' annual_Party_Returns'" := by
  refine ⟨?_, by decide⟩
  set_option maxRecDepth 100000 in decide

/-- C1 (amended): the dialect adapter is the identity for every query
when the active dialect is the case-insensitive one (no POSTGRES_URL),
and under PostgreSQL it is also the identity on every query in which no
cataloged table or column name occurs at all; when cataloged identifiers
do occur the rewrite is purely textual with no string-literal protection
for table names, pinned at two representative queries: the first wraps
the space-preceded table-name occurrences — also the one inside a
single-quoted string literal — and the whole-identifier column occurrence
outside the literal; the second leaves a table name not preceded by a
space bare, wraps the column outside the literal, and leaves the
cataloged column name inside the literal (odd number of single quotes
after it) unchanged. -/
theorem c1_thm :
    (∀ sql : String, quote_identifiers_for_postgres false sql = sql) ∧
    (∀ sql : String,
      (∀ t ∈ tablesCatalog, listContainsSub t.data sql.data = false) →
      (∀ c ∈ columnsCatalog, listContainsSub c.data sql.data = false) →
      quote_identifiers_for_postgres true sql = sql) ∧
    quote_identifiers_for_postgres true
        "FROM annual_Party_Returns WHERE Name = ' annual_Party_Returns'" =
      "FROM \"annual_Party_Returns\" WHERE \"Name\" = ' \"annual_Party_Returns\"'" ∧
    quote_identifiers_for_postgres true
        "annual_Party_Returns WHERE Donor_Name = 'no Event here'" =
      "annual_Party_Returns WHERE \"Donor_Name\" = 'no Event here'" := by
  refine ⟨fun sql => rfl, ?_, ?_, ?_⟩
  · intro sql ht hc
    show (⟨columnsCatalog.foldl (fun s c => pySubCol c.data s)
      (tablesCatalog.foldl (fun s t =>
        pyReplace ("from " ++ t).data ("from \"" ++ t ++ "\"").data
          (pyReplace ("FROM " ++ t).data ("FROM \"" ++ t ++ "\"").data
            (pyReplace (" " ++ t).data (" \"" ++ t ++ "\"").data s))) sql.data)⟩ : String) = sql
    rw [tablesFold_no_occ tablesCatalog sql.data ht,
        colsFold_no_occ columnsCatalog sql.data hc]
  · set_option maxRecDepth 100000 in decide
  · set_option maxRecDepth 100000 in decide

/-- C1 witness: the no-cataloged-identifier conjunct applied at a concrete
query mentioning no cataloged table or column name. -/
theorem c1_witness :
    quote_identifiers_for_postgres true "SELECT 1 FROM tbl" = "SELECT 1 FROM tbl" :=
  c1_thm.2.1 "SELECT 1 FROM tbl" (by decide) (by decide)
